import Mathlib

/-!
# Verification of sflvault `lib/common/crypto.py`

Shallow embedding of the cryptographic serialization module of SFLvault
(`src/sflvault/lib/common/crypto.py`).  Bytes are modelled as `Nat`
(with explicit `< 256` bounds where relevant), byte strings as
`List Nat`, and Python text strings as `List Char`.  Fallible Python
code (functions that can raise `DecryptError` / `TypeError` /
`IndexError`) is modelled with `Option`: `none` is "the call raised".

The external block ciphers (`Crypto.Cipher.AES`, `Crypto.Cipher.Blowfish`)
are collaborators, not code of this module; they are modelled as
function parameters `E`/`D : List Nat → List Nat → List Nat`
(key → data → data), with their inverse law taken as a hypothesis where
a theorem needs it.
-/

namespace Crypto

/-- `Crypto.Util.number.bytes_to_long`: big-endian interpretation of a
byte string as a non-negative integer.  `bytes_to_long "" = 0`. -/
def bytes_to_long (l : List Nat) : Nat :=
  l.foldl (fun a b => a * 256 + b) 0

/-- Big-endian digits of `n` in base 256, most significant first; `[]`
for `n = 0`.  Helper for `long_to_bytes` (the loop in
`Crypto.Util.number.long_to_bytes` produces exactly these digits after
leading-zero stripping). -/
def ltb (n : Nat) : List Nat :=
  if h : n = 0 then []
  else ltb (n / 256) ++ [n % 256]
decreasing_by exact Nat.div_lt_self (Nat.pos_of_ne_zero h) (by omega)

/-- `Crypto.Util.number.long_to_bytes(n)` with the default blocksize 0:
minimal big-endian byte representation, except that `0` encodes as a
single zero byte. -/
def long_to_bytes (n : Nat) : List Nat :=
  if n = 0 then [0] else ltb n

/-- `Crypto.Util.number.long_to_bytes(n, 4)`: as `long_to_bytes`, then
left-padded with zero bytes to a multiple of 4 bytes. -/
def long_to_bytes4 (n : Nat) : List Nat :=
  let s := long_to_bytes n
  List.replicate ((4 - s.length % 4) % 4) 0 ++ s

/-- One bit step of the (reflected, polynomial 0xEDB88320) CRC-32 used
by `zlib.crc32`. -/
def crcBit (c : Nat) : Nat :=
  if c % 2 = 1 then (c / 2) ^^^ 0xEDB88320 else c / 2

/-- One byte step of `zlib.crc32`: XOR the byte in, then 8 bit steps. -/
def crcByte (c b : Nat) : Nat :=
  crcBit (crcBit (crcBit (crcBit (crcBit (crcBit (crcBit (crcBit (c ^^^ b))))))))

/-- `zlib.crc32(l)` (single-argument form): initial value 0xFFFFFFFF,
byte steps, final complement. -/
def crc32 (l : List Nat) : Nat :=
  (l.foldl crcByte 0xFFFFFFFF) ^^^ 0xFFFFFFFF

/-- `wrapsum` (crypto.py line 53): append the 4-byte big-endian unsigned
CRC-32 of the payload.  The source masks with `& 0xffffffff`. -/
def wrapsum (plainval : List Nat) : List Nat :=
  plainval ++ long_to_bytes4 (crc32 plainval &&& 0xffffffff)

/-- `chksum` (crypto.py line 58): split the last 4 bytes as the stored
checksum (Python slicing: for inputs shorter than 4 the "checksum" is
the whole input and the payload is empty), recompute the CRC-32 of the
payload, raise `DecryptError` (here: `none`) on mismatch. -/
def chksum (sumval : List Nat) : Option (List Nat) :=
  let crc := sumval.drop (sumval.length - 4)
  let plainval := sumval.take (sumval.length - 4)
  let cmpcrc := crc32 plainval &&& 0xffffffff
  if bytes_to_long crc ≠ cmpcrc then none else some plainval

/-! ## Arithmetic facts about the byte conversions -/

theorem foldl_btl (l : List Nat) (a : Nat) :
    l.foldl (fun a b => a * 256 + b) a =
      a * 256 ^ l.length + l.foldl (fun a b => a * 256 + b) 0 := by
  induction l generalizing a with
  | nil => simp
  | cons x xs ih =>
    simp only [List.foldl_cons, List.length_cons]
    rw [ih (a * 256 + x), ih (0 * 256 + x)]
    ring

theorem bytes_to_long_append (l₁ l₂ : List Nat) :
    bytes_to_long (l₁ ++ l₂) =
      bytes_to_long l₁ * 256 ^ l₂.length + bytes_to_long l₂ := by
  simp only [bytes_to_long, List.foldl_append]
  rw [foldl_btl l₂ (l₁.foldl (fun a b => a * 256 + b) 0)]

theorem bytes_to_long_ltb (n : Nat) : bytes_to_long (ltb n) = n := by
  induction n using Nat.strong_induction_on with
  | _ n ih =>
    unfold ltb
    split
    · simp [bytes_to_long]
      omega
    · rename_i h
      rw [bytes_to_long_append, ih (n / 256) (Nat.div_lt_self (Nat.pos_of_ne_zero h) (by omega))]
      simp [bytes_to_long]
      omega

theorem bytes_to_long_replicate_zero (k : Nat) :
    bytes_to_long (List.replicate k 0) = 0 := by
  induction k with
  | zero => rfl
  | succ k ih =>
    have : List.replicate (k + 1) 0 = List.replicate k 0 ++ [0] := by
      rw [List.replicate_succ']
    rw [this, bytes_to_long_append, ih]
    simp [bytes_to_long]

theorem ltb_length_le (k : Nat) : ∀ n, n < 256 ^ k → (ltb n).length ≤ k := by
  induction k with
  | zero =>
    intro n hn
    have : n = 0 := by simpa using hn
    subst this
    simp [ltb]
  | succ k ih =>
    intro n hn
    unfold ltb
    split
    · simp
    · rename_i h
      rw [List.length_append]
      have hdiv : n / 256 < 256 ^ k := by
        apply Nat.div_lt_of_lt_mul
        calc n < 256 ^ (k + 1) := hn
        _ = 256 ^ k * 256 := by ring
        _ = 256 * 256 ^ k := by ring
      have := ih (n / 256) hdiv
      simp
      omega

theorem ltb_ne_nil (n : Nat) (h : n ≠ 0) : ltb n ≠ [] := by
  unfold ltb
  simp [h]

theorem getLast?_ltb (n : Nat) (h : n ≠ 0) : (ltb n).getLast? = some (n % 256) := by
  rw [ltb]
  simp [h]

theorem and_mask32_eq_mod (n : Nat) : n &&& 0xffffffff = n % 4294967296 := by
  have h : (0xffffffff : Nat) = 2 ^ 32 - 1 := by norm_num
  rw [h, Nat.and_pow_two_sub_one_eq_mod]

theorem and_mask32_lt (n : Nat) : n &&& 0xffffffff < 4294967296 := by
  rw [and_mask32_eq_mod]
  omega

theorem bytes_to_long_long_to_bytes (n : Nat) :
    bytes_to_long (long_to_bytes n) = n := by
  unfold long_to_bytes
  split
  · simp [bytes_to_long]
    omega
  · exact bytes_to_long_ltb n

theorem long_to_bytes_length_pos (n : Nat) : 0 < (long_to_bytes n).length := by
  unfold long_to_bytes
  split
  · simp
  · rename_i h
    have := ltb_ne_nil n h
    cases hl : ltb n with
    | nil => exact absurd hl this
    | cons a l => simp

theorem long_to_bytes_length_le (n : Nat) (h : n < 4294967296) :
    (long_to_bytes n).length ≤ 4 := by
  unfold long_to_bytes
  split
  · simp
  · exact ltb_length_le 4 n (by norm_num; omega)

theorem long_to_bytes4_length (n : Nat) (h : n < 4294967296) :
    (long_to_bytes4 n).length = 4 := by
  unfold long_to_bytes4
  have h1 := long_to_bytes_length_pos n
  have h2 := long_to_bytes_length_le n h
  simp only [List.length_append, List.length_replicate]
  omega

theorem bytes_to_long_long_to_bytes4 (n : Nat) :
    bytes_to_long (long_to_bytes4 n) = n := by
  unfold long_to_bytes4
  rw [bytes_to_long_append, bytes_to_long_replicate_zero, bytes_to_long_long_to_bytes]
  omega

theorem getLast?_long_to_bytes (n : Nat) :
    (long_to_bytes n).getLast? = some (n % 256) := by
  unfold long_to_bytes
  split
  · rename_i h
    subst h
    rfl
  · rename_i h
    exact getLast?_ltb n h

theorem getLast?_long_to_bytes4 (n : Nat) :
    (long_to_bytes4 n).getLast? = some (n % 256) := by
  unfold long_to_bytes4
  rw [List.getLast?_append_of_ne_nil]
  · exact getLast?_long_to_bytes n
  · intro hnil
    have := long_to_bytes_length_pos n
    rw [hnil] at this
    simp at this

/-- `chksum` inverts `wrapsum` on every byte string: the round-trip law
behind the checksum framing. -/
theorem chksum_wrapsum (p : List Nat) : chksum (wrapsum p) = some p := by
  unfold chksum wrapsum
  have hlen : (long_to_bytes4 (crc32 p &&& 0xffffffff)).length = 4 :=
    long_to_bytes4_length _ (and_mask32_lt _)
  have hL : (p ++ long_to_bytes4 (crc32 p &&& 0xffffffff)).length - 4 = p.length := by
    simp [List.length_append, hlen]
  rw [hL, List.take_left, List.drop_left]
  simp [bytes_to_long_long_to_bytes4]

/-- Python's `s.rstrip("\x00")`: remove all trailing zero bytes. -/
def rstripZeros (l : List Nat) : List Nat :=
  (l.reverse.dropWhile (fun b => b == 0)).reverse

/-- The standard base64 alphabet used by `base64.b64encode`. -/
def b64chars : List Char :=
  "ABCDEFGHIJKLMNOPQRSTUVWXYZabcdefghijklmnopqrstuvwxyz0123456789+/".toList

/-- The alphabet character for a 6-bit group. -/
def b64char (n : Nat) : Char := b64chars.getD n 'A'

/-- Index of a character in the base64 alphabet, `none` if absent. -/
def b64val (c : Char) : Option Nat :=
  let i := b64chars.indexOf c
  if i < 64 then some i else none

/-- `base64.b64encode`: 3 input bytes become 4 alphabet characters; a
final chunk of 1 or 2 bytes is padded with `=`. -/
def b64encode : List Nat → List Char
  | [] => []
  | [b0] => [b64char (b0 / 4), b64char (b0 % 4 * 16), '=', '=']
  | [b0, b1] =>
      [b64char (b0 / 4), b64char (b0 % 4 * 16 + b1 / 16), b64char (b1 % 16 * 4), '=']
  | b0 :: b1 :: b2 :: rest =>
      b64char (b0 / 4) :: b64char (b0 % 4 * 16 + b1 / 16) ::
      b64char (b1 % 16 * 4 + b2 / 64) :: b64char (b2 % 64) :: b64encode rest

/-- `base64.b64decode`, modelled as the strict standard decoder: groups
of 4 alphabet characters make 3 bytes, `=`-padding only at the end;
anything else is a failure (`none`).  (The CPython 2 `binascii` decoder
additionally skips characters outside the alphabet; every input this
development feeds to `b64decode` consists of alphabet characters and
`=` only, where the two decoders agree.) -/
def b64decode : List Char → Option (List Nat)
  | [] => some []
  | c0 :: c1 :: c2 :: c3 :: rest => do
      let v0 ← b64val c0
      let v1 ← b64val c1
      if c2 = '=' ∧ c3 = '=' ∧ rest = [] then
        pure [v0 * 4 + v1 / 16]
      else do
        let v2 ← b64val c2
        if c3 = '=' ∧ rest = [] then
          pure [v0 * 4 + v1 / 16, v1 % 16 * 16 + v2 / 4]
        else do
          let v3 ← b64val c3
          let tl ← b64decode rest
          pure ((v0 * 4 + v1 / 16) :: (v1 % 16 * 16 + v2 / 4) :: (v2 % 4 * 64 + v3) :: tl)
  | _ => none

/-- Python's `stuff.split(':')`: split on every colon, keeping empty
fields; always returns at least one field. -/
def splitColon : List Char → List (List Char)
  | [] => [[]]
  | c :: rest =>
      if c = ':' then [] :: splitColon rest
      else
        match splitColon rest with
        | [] => [[c]]
        | f :: fs => (c :: f) :: fs

/-! ## Facts about rstrip, base64 and colon splitting -/

theorem dropWhile_zeros_replicate (k : Nat) :
    (List.replicate k 0).dropWhile (fun b : Nat => b == 0) = [] := by
  induction k with
  | zero => rfl
  | succ k ih => simpa [List.replicate_succ, List.dropWhile_cons]

theorem rstripZeros_append_replicate (l : List Nat) (k : Nat) :
    rstripZeros (l ++ List.replicate k 0) = rstripZeros l := by
  unfold rstripZeros
  rw [List.reverse_append]
  have hrev : (List.replicate k 0).reverse = List.replicate k (0 : Nat) :=
    List.reverse_replicate k 0
  rw [hrev, List.dropWhile_append]
  rw [dropWhile_zeros_replicate]
  simp

theorem rstripZeros_getLast_ne_zero (l : List Nat) (b : Nat)
    (hl : l.getLast? = some b) (hb : b ≠ 0) : rstripZeros l = l := by
  unfold rstripZeros
  rw [List.getLast?_eq_head?_reverse] at hl
  cases hrev : l.reverse with
  | nil => rw [hrev] at hl; simp at hl
  | cons x t =>
    rw [hrev] at hl
    simp only [List.head?_cons, Option.some.injEq] at hl
    subst hl
    rw [List.dropWhile_cons]
    simp only [beq_iff_eq, hb, if_false]
    rw [← hrev, List.reverse_reverse]

theorem splitColon_cons (c : Char) (rest : List Char) :
    splitColon (c :: rest) =
      if c = ':' then [] :: splitColon rest
      else
        match splitColon rest with
        | [] => [[c]]
        | f :: fs => (c :: f) :: fs := by
  rw [splitColon]

theorem splitColon_ne_nil (l : List Char) : splitColon l ≠ [] := by
  induction l with
  | nil => simp [splitColon]
  | cons c rest ih =>
    rw [splitColon_cons]
    split
    · simp
    · cases h : splitColon rest with
      | nil => simp
      | cons f fs => simp

theorem splitColon_no_colon (l : List Char) (h : ∀ c ∈ l, c ≠ ':') :
    splitColon l = [l] := by
  induction l with
  | nil => rfl
  | cons c rest ih =>
    rw [splitColon_cons]
    have hc : c ≠ ':' := h c (by simp)
    simp only [hc, if_false]
    rw [ih (fun x hx => h x (by simp [hx]))]

theorem splitColon_append (xs ys : List Char) (h : ∀ c ∈ xs, c ≠ ':') :
    splitColon (xs ++ ':' :: ys) = xs :: splitColon ys := by
  induction xs with
  | nil =>
    simp only [List.nil_append]
    rw [splitColon_cons]
    simp
  | cons c rest ih =>
    have hc : c ≠ ':' := h c (by simp)
    simp only [List.cons_append]
    rw [splitColon_cons]
    simp only [hc, if_false]
    rw [ih (fun x hx => h x (by simp [hx]))]

theorem b64val_b64char : ∀ g, g < 64 → b64val (b64char g) = some g := by decide

theorem b64char_ne_pad : ∀ g, g < 64 → b64char g ≠ '=' := by decide

theorem b64char_mem (n : Nat) : b64char n ∈ b64chars := by
  unfold b64char
  rcases Nat.lt_or_ge n b64chars.length with h | h
  · rw [List.getD_eq_getElem b64chars 'A' h]
    exact List.getElem_mem h
  · rw [List.getD_eq_default b64chars 'A' (by omega)]
    decide

theorem b64char_ne_colon (n : Nat) : b64char n ≠ ':' := by
  intro h
  have hm := b64char_mem n
  rw [h] at hm
  exact absurd hm (by decide)

theorem b64encode_ne_colon (bs : List Nat) : ∀ c ∈ b64encode bs, c ≠ ':' := by
  induction bs using b64encode.induct with
  | case1 => intro c hc; simp [b64encode] at hc
  | case2 b0 =>
    intro c hc
    simp only [b64encode, List.mem_cons, List.not_mem_nil, or_false] at hc
    rcases hc with rfl | rfl | rfl | rfl
    · exact b64char_ne_colon _
    · exact b64char_ne_colon _
    · decide
    · decide
  | case3 b0 b1 =>
    intro c hc
    simp only [b64encode, List.mem_cons, List.not_mem_nil, or_false] at hc
    rcases hc with rfl | rfl | rfl | rfl
    · exact b64char_ne_colon _
    · exact b64char_ne_colon _
    · exact b64char_ne_colon _
    · decide
  | case4 b0 b1 b2 rest ih =>
    intro c hc
    simp only [b64encode, List.mem_cons] at hc
    rcases hc with rfl | rfl | rfl | rfl | hmem
    · exact b64char_ne_colon _
    · exact b64char_ne_colon _
    · exact b64char_ne_colon _
    · exact b64char_ne_colon _
    · exact ih c hmem

/-- Decoding inverts encoding for genuine byte strings (all values
below 256). -/
theorem b64decode_b64encode (bs : List Nat) (h : ∀ b ∈ bs, b < 256) :
    b64decode (b64encode bs) = some bs := by
  induction bs using b64encode.induct with
  | case1 => rfl
  | case2 b0 =>
    have hb0 : b0 < 256 := h b0 (by simp)
    simp only [b64encode, b64decode,
      b64val_b64char (b0 / 4) (by omega), b64val_b64char (b0 % 4 * 16) (by omega)]
    simp only [Option.bind_eq_bind, Option.some_bind]
    simp only [and_self, and_true, if_true, reduceIte]
    simp only [Option.pure_def, Option.some.injEq, List.cons.injEq, and_true]
    omega
  | case3 b0 b1 =>
    have hb0 : b0 < 256 := h b0 (by simp)
    have hb1 : b1 < 256 := h b1 (by simp)
    have hne : b64char (b1 % 16 * 4) ≠ '=' := b64char_ne_pad _ (by omega)
    simp only [b64encode, b64decode,
      b64val_b64char (b0 / 4) (by omega),
      b64val_b64char (b0 % 4 * 16 + b1 / 16) (by omega),
      b64val_b64char (b1 % 16 * 4) (by omega)]
    simp only [Option.bind_eq_bind, Option.some_bind]
    simp only [hne, false_and, and_false, if_false, reduceIte, and_self, and_true, if_true]
    simp only [Option.pure_def, Option.some.injEq, List.cons.injEq, and_true]
    constructor <;> omega
  | case4 b0 b1 b2 rest ih =>
    have hb0 : b0 < 256 := h b0 (by simp)
    have hb1 : b1 < 256 := h b1 (by simp)
    have hb2 : b2 < 256 := h b2 (by simp)
    have hrest : ∀ b ∈ rest, b < 256 := fun b hb => h b (by simp [hb])
    have hne2 : b64char (b1 % 16 * 4 + b2 / 64) ≠ '=' := b64char_ne_pad _ (by omega)
    have hne3 : b64char (b2 % 64) ≠ '=' := b64char_ne_pad _ (by omega)
    simp only [b64encode, b64decode,
      b64val_b64char (b0 / 4) (by omega),
      b64val_b64char (b0 % 4 * 16 + b1 / 16) (by omega),
      b64val_b64char (b1 % 16 * 4 + b2 / 64) (by omega),
      b64val_b64char (b2 % 64) (by omega), ih hrest]
    simp only [Option.bind_eq_bind, Option.some_bind]
    simp only [hne2, hne3, false_and, and_false, if_false, reduceIte]
    simp only [Option.pure_def, Option.some.injEq, List.cons.injEq, and_true]
    omega

/-! ## The ElGamal key-material codec (crypto.py lines 78-127) -/

/-- `serial_elgamal_msg`: 2-tuple of byte strings, base64 each field,
join with `:`. -/
def serial_elgamal_msg (stuff : List Nat × List Nat) : List Char :=
  b64encode stuff.1 ++ ':' :: b64encode stuff.2

/-- `unserial_elgamal_msg`: split on `:`, base64-decode the first two
fields (extra fields are ignored by the source, which indexes only
`x[0]` and `x[1]`; a missing field raises `IndexError`, here `none`). -/
def unserial_elgamal_msg (stuff : List Char) : Option (List Nat × List Nat) :=
  match splitColon stuff with
  | x0 :: x1 :: _ => do
      let a ← b64decode x0
      let b ← b64decode x1
      pure (a, b)
  | _ => none

/-- `serial_elgamal_pubkey`: 3-tuple of non-negative integers,
`long_to_bytes` then base64 each field, join with `:`. -/
def serial_elgamal_pubkey (stuff : Nat × Nat × Nat) : List Char :=
  b64encode (long_to_bytes stuff.1) ++ ':' ::
  (b64encode (long_to_bytes stuff.2.1) ++ ':' ::
   b64encode (long_to_bytes stuff.2.2))

/-- `unserial_elgamal_pubkey`: split on `:`, base64-decode and
`bytes_to_long` the first three fields (extras ignored, missing fields
raise). -/
def unserial_elgamal_pubkey (stuff : List Char) : Option (Nat × Nat × Nat) :=
  match splitColon stuff with
  | x0 :: x1 :: x2 :: _ => do
      let a ← b64decode x0
      let b ← b64decode x1
      let c ← b64decode x2
      pure (bytes_to_long a, bytes_to_long b, bytes_to_long c)
  | _ => none

/-- `serial_elgamal_privkey`: as the public key with a fourth field. -/
def serial_elgamal_privkey (stuff : Nat × Nat × Nat × Nat) : List Char :=
  b64encode (long_to_bytes stuff.1) ++ ':' ::
  (b64encode (long_to_bytes stuff.2.1) ++ ':' ::
   (b64encode (long_to_bytes stuff.2.2.1) ++ ':' ::
    b64encode (long_to_bytes stuff.2.2.2)))

/-- `unserial_elgamal_privkey`: split on `:`, decode the first four
fields. -/
def unserial_elgamal_privkey (stuff : List Char) : Option (Nat × Nat × Nat × Nat) :=
  match splitColon stuff with
  | x0 :: x1 :: x2 :: x3 :: _ => do
      let a ← b64decode x0
      let b ← b64decode x1
      let c ← b64decode x2
      let d ← b64decode x3
      pure (bytes_to_long a, bytes_to_long b, bytes_to_long c, bytes_to_long d)
  | _ => none

/-! ## The two symmetric ciphers (crypto.py lines 137-195)

`Blowfish.new(pw)` / `AES.new(key)` in ECB mode are external: they are
modelled as parameters `E D : List Nat → List Nat → List Nat` taking
the key and the data. -/

/-- `encrypt_privkey` (crypto.py line 137): checksum-wrap, zero-pad to a
multiple of 8 bytes, Blowfish-encrypt with the password, base64. -/
def encrypt_privkey (E : List Nat → List Nat → List Nat)
    (something pw : List Nat) : List Char :=
  let nsomething := wrapsum something
  let add := List.replicate ((8 - nsomething.length % 8) % 8) 0
  b64encode (E pw (nsomething ++ add))

/-- `decrypt_privkey` (crypto.py line 150): base64-decode,
Blowfish-decrypt, strip trailing zero bytes, checksum-validate.
Checksum failure propagates (`none` = `DecryptError` raised). -/
def decrypt_privkey (D : List Nat → List Nat → List Nat)
    (something : List Char) (pw : List Nat) : Option (List Nat) := do
  let ct ← b64decode something
  chksum (rstripZeros (D pw ct))

/-- `encrypt_secret` (crypto.py line 162): checksum-wrap, zero-pad to a
multiple of 16 bytes, AES-encrypt with the fresh 32-byte key `seckey`
(drawn from the random pool by the source; passed explicitly here),
base64 both the key and the ciphertext. -/
def encrypt_secret (E : List Nat → List Nat → List Nat)
    (seckey secret : List Nat) : List Char × List Char :=
  let wsecret := wrapsum secret
  let padded_secret := wsecret ++ List.replicate ((16 - wsecret.length % 16) % 16) 0
  (b64encode seckey, b64encode (E seckey padded_secret))

/-- `decrypt_secret` (crypto.py line 179): base64-decode key and
ciphertext, AES-decrypt, strip trailing zero bytes, then try the
checksum: on success return the unwrapped payload with `legacy = false`;
on `DecryptError` return the stripped bytes themselves with
`legacy = true` (the source logs a migration note on that path and
returns the stripped value). -/
def decrypt_secret (D : List Nat → List Nat → List Nat)
    (seckey ciphertext : List Char) : Option (List Nat × Bool) := do
  let key ← b64decode seckey
  let ct ← b64decode ciphertext
  let secret := rstripZeros (D key ct)
  match chksum secret with
  | some sec2 => pure (sec2, false)
  | none => pure (secret, true)

/-! ## Remaining helper lemmas -/

theorem ltb_mem_lt (n : Nat) : ∀ b ∈ ltb n, b < 256 := by
  induction n using Nat.strong_induction_on with
  | _ n ih =>
    intro b hb
    rw [ltb] at hb
    split at hb
    · simp at hb
    · rename_i h
      rw [List.mem_append] at hb
      rcases hb with hb | hb
      · exact ih (n / 256) (Nat.div_lt_self (Nat.pos_of_ne_zero h) (by omega)) b hb
      · simp at hb
        omega

theorem long_to_bytes_mem_lt (n : Nat) : ∀ b ∈ long_to_bytes n, b < 256 := by
  unfold long_to_bytes
  split
  · intro b hb
    simp at hb
    omega
  · exact ltb_mem_lt n

/-! ## Claim theorems -/

/-- C8: for every byte string `p`, `chksum (wrapsum p) = some p`, where
`wrapsum` appends the 4-byte unsigned CRC-32 of `p` (so the framed
value is exactly 4 bytes longer) and is a total function with no
failure mode. -/
theorem C8_unwrap_wrap_roundtrip :
    ∀ p : List Nat, chksum (wrapsum p) = some p ∧ (wrapsum p).length = p.length + 4 := by
  intro p
  refine ⟨chksum_wrapsum p, ?_⟩
  unfold wrapsum
  rw [List.length_append, long_to_bytes4_length _ (and_mask32_lt _)]

/-- C7 counterexample: `chksum` on the empty string (shorter than 4
bytes) returns a value (`some []`) instead of failing, refuting the
claim that every input shorter than 4 bytes is rejected. -/
theorem C7_counterexample : chksum [] = some [] := by decide

/-- C7 amended: for an input shorter than 4 bytes, `chksum` fails
exactly when the input contains a nonzero byte (its big-endian value is
nonzero); all-zero short inputs — including the empty string — are
accepted with an empty payload. -/
theorem C7_short_input (l : List Nat) (h : l.length < 4) :
    chksum l = if bytes_to_long l = 0 then some [] else none := by
  unfold chksum
  have h0 : l.length - 4 = 0 := by omega
  rw [h0]
  simp only [List.drop_zero, List.take_zero]
  have hc : crc32 [] &&& 0xffffffff = 0 := by decide
  rw [hc]
  by_cases hbl : bytes_to_long l = 0 <;> simp [hbl]

/-- C7 witness: the single byte 7 is shorter than 4 bytes and is
rejected by `chksum`. -/
theorem C7_short_input_witness :
    chksum [7] = if bytes_to_long [7] = 0 then some [] else none :=
  C7_short_input [7] (by decide)

/-- C5: decoding the encoding is the identity, field for field, for
2-tuples of byte strings (message pairs), 3-tuples of non-negative
integers (public keys) and 4-tuples of non-negative integers (private
keys). -/
theorem C5_codec_roundtrip :
    (∀ a b : List Nat, (∀ x ∈ a, x < 256) → (∀ x ∈ b, x < 256) →
        unserial_elgamal_msg (serial_elgamal_msg (a, b)) = some (a, b)) ∧
    (∀ p g y : Nat,
        unserial_elgamal_pubkey (serial_elgamal_pubkey (p, g, y)) = some (p, g, y)) ∧
    (∀ a b c d : Nat,
        unserial_elgamal_privkey (serial_elgamal_privkey (a, b, c, d)) =
          some (a, b, c, d)) := by
  refine ⟨?_, ?_, ?_⟩
  · intro a b ha hb
    unfold serial_elgamal_msg unserial_elgamal_msg
    rw [splitColon_append _ _ (b64encode_ne_colon a),
        splitColon_no_colon _ (b64encode_ne_colon b)]
    simp [b64decode_b64encode a ha, b64decode_b64encode b hb]
  · intro p g y
    unfold serial_elgamal_pubkey unserial_elgamal_pubkey
    rw [splitColon_append _ _ (b64encode_ne_colon _),
        splitColon_append _ _ (b64encode_ne_colon _),
        splitColon_no_colon _ (b64encode_ne_colon _)]
    simp [b64decode_b64encode _ (long_to_bytes_mem_lt p),
          b64decode_b64encode _ (long_to_bytes_mem_lt g),
          b64decode_b64encode _ (long_to_bytes_mem_lt y),
          bytes_to_long_long_to_bytes]
  · intro a b c d
    unfold serial_elgamal_privkey unserial_elgamal_privkey
    rw [splitColon_append _ _ (b64encode_ne_colon _),
        splitColon_append _ _ (b64encode_ne_colon _),
        splitColon_append _ _ (b64encode_ne_colon _),
        splitColon_no_colon _ (b64encode_ne_colon _)]
    simp [b64decode_b64encode _ (long_to_bytes_mem_lt a),
          b64decode_b64encode _ (long_to_bytes_mem_lt b),
          b64decode_b64encode _ (long_to_bytes_mem_lt c),
          b64decode_b64encode _ (long_to_bytes_mem_lt d),
          bytes_to_long_long_to_bytes]

/-- C5 witness: a concrete message-pair round trip. -/
theorem C5_codec_roundtrip_witness :
    unserial_elgamal_msg (serial_elgamal_msg ([0, 255], [42])) = some ([0, 255], [42]) :=
  C5_codec_roundtrip.1 [0, 255] [42] (by decide) (by decide)

/-- C6 counterexample: an encoded public-key string with four
colon-separated fields (one more than the expected three) is decoded
successfully to the first three fields instead of failing. -/
theorem C6_counterexample :
    unserial_elgamal_pubkey ("Cw==:Ag==:CQ==:CQ==".toList) = some (11, 2, 9) := by decide

/-- C6 amended: decoding fails when the input has FEWER colon-separated
fields than expected (2 for message pairs, 3 for public keys, 4 for
private keys); when it has more, the extra fields are silently ignored
rather than rejected. -/
theorem C6_too_few_fields (s : List Char) :
    ((splitColon s).length < 2 → unserial_elgamal_msg s = none) ∧
    ((splitColon s).length < 3 → unserial_elgamal_pubkey s = none) ∧
    ((splitColon s).length < 4 → unserial_elgamal_privkey s = none) := by
  refine ⟨?_, ?_, ?_⟩
  · unfold unserial_elgamal_msg
    cases hs : splitColon s with
    | nil => intro h; rfl
    | cons x0 t =>
      cases t with
      | nil => intro h; rfl
      | cons x1 t2 => intro h; simp at h; omega
  · unfold unserial_elgamal_pubkey
    cases hs : splitColon s with
    | nil => intro h; rfl
    | cons x0 t =>
      cases t with
      | nil => intro h; rfl
      | cons x1 t2 =>
        cases t2 with
        | nil => intro h; rfl
        | cons x2 t3 => intro h; simp at h; omega
  · unfold unserial_elgamal_privkey
    cases hs : splitColon s with
    | nil => intro h; rfl
    | cons x0 t =>
      cases t with
      | nil => intro h; rfl
      | cons x1 t2 =>
        cases t2 with
        | nil => intro h; rfl
        | cons x2 t3 =>
          cases t3 with
          | nil => intro h; rfl
          | cons x3 t4 => intro h; simp at h; omega

/-- C6 witness: a two-field string is rejected by the public-key
decoder. -/
theorem C6_too_few_fields_witness :
    unserial_elgamal_pubkey ("AA==:AA==".toList) = none :=
  (C6_too_few_fields ("AA==:AA==".toList)).2.1 (by decide)

/-- C10: the colon-delimited format is not canonical: the well-formed
public-key string "AAs=:Ag==:CQ==" (whose first field base64-decodes to
the bytes 0x00 0x0B, with a leading zero) decodes to the triple
(11, 2, 9), but re-encoding that triple produces the different string
"Cw==:Ag==:CQ==" because encoding emits the minimal big-endian
representation. -/
theorem C10_not_canonical :
    unserial_elgamal_pubkey ("AAs=:Ag==:CQ==".toList) = some (11, 2, 9) ∧
    serial_elgamal_pubkey (11, 2, 9) = "Cw==:Ag==:CQ==".toList ∧
    serial_elgamal_pubkey (11, 2, 9) ≠ "AAs=:Ag==:CQ==".toList := by
  have h11 : long_to_bytes 11 = [11] := by simp [long_to_bytes, ltb]
  have h2 : long_to_bytes 2 = [2] := by simp [long_to_bytes, ltb]
  have h9 : long_to_bytes 9 = [9] := by simp [long_to_bytes, ltb]
  refine ⟨by decide, ?_, ?_⟩
  · simp only [serial_elgamal_pubkey, h11, h2, h9]
    decide
  · simp only [serial_elgamal_pubkey, h11, h2, h9]
    decide

/-- C3: whenever checksum validation fails inside `decrypt_secret`, the
operation does not raise: it returns the zero-stripped decrypted bytes
verbatim together with `legacy = true`. -/
theorem C3_legacy_fallback (D : List Nat → List Nat → List Nat)
    (seckey ciphertext : List Char) (key ct : List Nat)
    (hk : b64decode seckey = some key) (hc : b64decode ciphertext = some ct)
    (hfail : chksum (rstripZeros (D key ct)) = none) :
    decrypt_secret D seckey ciphertext = some (rstripZeros (D key ct), true) := by
  unfold decrypt_secret
  rw [hk, hc]
  simp [hfail]

/-- C3 witness: with an identity cipher, key `""` and ciphertext
`"YQ=="` (the byte 0x61), the checksum fails and the stripped byte is
returned with the legacy flag. -/
theorem C3_legacy_fallback_witness :
    decrypt_secret (fun _ x => x) [] ("YQ==".toList) = some ([97], true) := by
  have h := C3_legacy_fallback (fun _ x => x) [] ("YQ==".toList) [] [97]
    (by decide) (by decide) (by decide)
  simpa using h

/-- C4: whenever the recomputed CRC-32 of the zero-stripped decrypted
payload does not match its trailing 4 bytes, `decrypt_privkey` raises
(`none`); it never returns a value on checksum failure. -/
theorem C4_privkey_integrity (D : List Nat → List Nat → List Nat)
    (something : List Char) (pw ct : List Nat)
    (hb : b64decode something = some ct)
    (hfail : chksum (rstripZeros (D pw ct)) = none) :
    decrypt_privkey D something pw = none := by
  unfold decrypt_privkey
  rw [hb]
  simp [hfail]

/-- C4 witness: with an identity cipher, decrypting `"YQ=="` (the byte
0x61, whose checksum cannot validate) raises. -/
theorem C4_privkey_integrity_witness :
    decrypt_privkey (fun _ x => x) ("YQ==".toList) [] = none :=
  C4_privkey_integrity (fun _ x => x) ("YQ==".toList) [] [97] (by decide) (by decide)

/-- C9: for every well-formed input pair (valid base64 key of a legal
AES key length, valid base64 ciphertext of a positive multiple of 16
bytes), `decrypt_secret` never raises: it always returns a value, since
the only checksum failure is caught internally. -/
theorem C9_no_raise (D : List Nat → List Nat → List Nat)
    (seckey ciphertext : List Char) (key ct : List Nat)
    (hk : b64decode seckey = some key)
    (hklen : key.length = 16 ∨ key.length = 24 ∨ key.length = 32)
    (hc : b64decode ciphertext = some ct)
    (hctpos : 0 < ct.length) (hctmul : ct.length % 16 = 0) :
    ∃ r, decrypt_secret D seckey ciphertext = some r := by
  unfold decrypt_secret
  rw [hk, hc]
  cases hch : chksum (rstripZeros (D key ct)) with
  | none => exact ⟨(rstripZeros (D key ct), true), by simp [hch]⟩
  | some sec2 => exact ⟨(sec2, false), by simp [hch]⟩

/-- C9 witness: a 16-byte all-zero key and 16-byte all-zero ciphertext,
base64-encoded, decrypt (with an identity cipher) to some result. -/
theorem C9_no_raise_witness :
    ∃ r, decrypt_secret (fun _ x => x)
        (b64encode (List.replicate 16 0)) (b64encode (List.replicate 16 0)) = some r :=
  C9_no_raise (fun _ x => x) (b64encode (List.replicate 16 0))
    (b64encode (List.replicate 16 0)) (List.replicate 16 0) (List.replicate 16 0)
    (by decide) (by decide) (by decide) (by decide) (by decide)

/-- Helper for the two round-trip failures: the CRC-32 of the single
byte 0xFF is 0xFF000000, so the checksum trailer of `[255]` ends in
three zero bytes. -/
theorem wrapsum_ff : wrapsum [255] = [255, 255, 0, 0, 0] := by
  have h1 : crc32 [255] &&& 0xffffffff = 4278190080 := by decide
  simp only [wrapsum, h1]
  simp [long_to_bytes4, long_to_bytes, ltb]

/-- C1 (code bug): the claimed round trip fails for the secret `[255]`:
its CRC-32 is 0xFF000000, whose three trailing zero bytes are eaten by
the rstrip in `decrypt_secret`, so (with any cipher; here the identity
instance of the modelled AES) the checksum fails and the call returns
`([255, 255], legacy = true)` instead of `([255], legacy = false)`. -/
theorem C1_roundtrip_failure :
    decrypt_secret (fun _ x => x)
        (encrypt_secret (fun _ x => x) (List.replicate 32 0) [255]).1
        (encrypt_secret (fun _ x => x) (List.replicate 32 0) [255]).2
      = some ([255, 255], true) ∧
    decrypt_secret (fun _ x => x)
        (encrypt_secret (fun _ x => x) (List.replicate 32 0) [255]).1
        (encrypt_secret (fun _ x => x) (List.replicate 32 0) [255]).2
      ≠ some ([255], false) := by
  simp only [encrypt_secret, wrapsum_ff]
  decide

/-- C2 (code bug): the claimed round trip fails for the blob `[255]`
(password "pw", identity instance of the modelled Blowfish): the three
trailing zero bytes of its CRC-32 trailer are stripped together with
the padding, the checksum fails, and `decrypt_privkey` raises
(`none`) instead of returning the blob. -/
theorem C2_roundtrip_failure :
    decrypt_privkey (fun _ x => x)
        (encrypt_privkey (fun _ x => x) [255] [112, 119]) [112, 119] = none := by
  simp only [encrypt_privkey, wrapsum_ff]
  decide
